import Mathlib

/-! Verification of the `converter` package (otyang/converter, `converter.go`).

The Go code is shallowly embedded as follows.

* `decimal.Decimal` (github.com/shopspring/decimal) values are exact rationals
  (a coefficient times a power of ten); we identify each decimal with the
  rational number it denotes, so decimal arithmetic other than division is the
  exact rational arithmetic.  `Decimal.Div` performs `DivRound` at
  `DivisionPrecision = 16` decimal places (rounding halves away from zero) and
  panics on a zero divisor; the panic is modelled as `none`.
* Currency codes are Go strings; `strings.ToUpper` / `strings.EqualFold`
  restricted to ASCII input (ISO currency codes) are `ToUpper` / `EqualFold`.
* Fallible functions return `Except ConvError`; a Go run-time panic
  (division by zero inside `CalculateRate` or `NewQuote`) is `none` in an
  outer `Option` layer.
* The `sync.RWMutex` in `Currencies` guards no writers (the spec's §5 notes the
  collection is read-only after construction) and is dropped, as is the
  wall-clock `Date` field of `Quote`.
* The generic JSON round trip in `NewCurrencies` (any `[]T` marshalled and then
  unmarshalled into `[]Currency`) is represented by its outcome: an
  `Except String (List Currency)` input, `.error` when the source cannot be
  encoded or decoded to the currency shape.
-/

/-- Uppercase one character: the ASCII fragment of Go `unicode.ToUpper`
(ISO currency codes are ASCII; characters outside `a`-`z` are left unchanged). -/
def upChar (c : Char) : Char :=
  if 97 ≤ c.toNat ∧ c.toNat ≤ 122 then Char.ofNat (c.toNat - 32) else c

/-- Models Go `strings.ToUpper` on ASCII strings: uppercase every character. -/
def ToUpper (s : String) : String := ⟨s.data.map upChar⟩

/-- Models Go `strings.EqualFold` on ASCII strings, where simple case folding
coincides with equality after uppercasing. -/
def EqualFold (a b : String) : Bool := ToUpper a == ToUpper b

/-- Models shopspring `decimal.DivisionPrecision` (default 16): the number of
decimal places kept by `Decimal.Div`. -/
def DivisionPrecision : ℕ := 16

/-- Round a rational to an integer, halves away from zero: the rounding used by
shopspring `Decimal.DivRound`. -/
def Decimal.roundHalfAway (q : ℚ) : ℤ :=
  if 0 ≤ q then ⌊q + 1 / 2⌋ else ⌈q - 1 / 2⌉

/-- Models shopspring `Decimal.DivRound d d2 prec`: the exact quotient rounded,
halves away from zero, at `prec` decimal places. -/
def Decimal.DivRound (d d2 : ℚ) (prec : ℕ) : ℚ :=
  (Decimal.roundHalfAway (d / d2 * 10 ^ prec) : ℚ) / 10 ^ prec

/-- Models shopspring `Decimal.Div`: `DivRound` at `DivisionPrecision` decimal
places.  A zero divisor makes the Go library panic, modelled as `none`. -/
def Decimal.Div (d d2 : ℚ) : Option ℚ :=
  if d2 = 0 then none else some (Decimal.DivRound d d2 DivisionPrecision)

/-- Models shopspring `Decimal.RoundCeil d places`: round towards positive
infinity at `places` decimal places (negative `places` round to tens,
hundreds, ...). -/
def Decimal.RoundCeil (d : ℚ) (places : ℤ) : ℚ :=
  (⌈d * 10 ^ places⌉ : ℚ) / 10 ^ places

/-- Models the Go conversion `int32(n)` from `int`: two's-complement
truncation to 32 bits. -/
def int32wrap (n : ℤ) : ℤ := (n + 2 ^ 31) % 2 ^ 32 - 2 ^ 31

/-- Embeds the `Currency` struct (converter.go:22-27).  `Precision` is a Go
`int`; rates are shopspring decimals, identified with their rational values. -/
structure Currency where
  ISOCode : String
  Precision : ℤ
  BuyRate : ℚ
  SellRate : ℚ
  deriving DecidableEq

/-- Embeds the `Currencies` registry struct (converter.go:30-33) without its
read-write mutex (no writers exist after construction). -/
structure Currencies where
  currencies : List Currency
  deriving DecidableEq

/-- Error values of the package (converter.go:15-19 and the ad-hoc errors of
`NewQuote` and `NewCurrencies`), as one tagged type:
`emptySource` is `ErrEmptyCurrencySource`, `notFound code` is
`fmt.Errorf(ErrCurrencyNotFound, code)`, `baseNotFound` is
`ErrBaseCurrencyNotFound` (note it carries no code), `decodeError` is a
`json` marshal/unmarshal error, and `missingRegistry` is the error returned
by `NewQuote` for a nil registry. -/
inductive ConvError where
  | emptySource
  | notFound (code : String)
  | baseNotFound
  | decodeError (msg : String)
  | missingRegistry
  deriving DecidableEq

deriving instance DecidableEq for Except

/-- Embeds `NewCurrencies` (converter.go:36-52).  The `json.Marshal` /
`json.Unmarshal` round trip of the generic `[]T` source is represented by its
outcome `decoded : Except String (List Currency)` (`.error` when the source
cannot be converted to the `Currency` shape, as for the Go errors returned at
lines 39 and 44). -/
def NewCurrencies (decoded : Except String (List Currency)) :
    Except ConvError Currencies :=
  match decoded with
  | .error msg => .error (.decodeError msg)
  | .ok currencies =>
    if currencies.length = 0 then .error .emptySource
    else .ok { currencies := currencies }

/-- Embeds `(c *Currencies) FindCurrency` (converter.go:55-70): error on an
empty registry, else the first record whose ISO code matches the requested
code case-insensitively, else a not-found error carrying the requested code. -/
def FindCurrency (c : Currencies) (code : String) : Except ConvError Currency :=
  if c.currencies.length = 0 then .error .emptySource
  else
    match c.currencies.find? (fun cur => EqualFold cur.ISOCode code) with
    | some cur => .ok cur
    | none => .error (.notFound code)

/-- Embeds `(c *Currencies) CalculateRate` (converter.go:92-138).  The three
codes are uppercased (twice, as in the source) before any comparison; the
result is `none` when the Go code would panic dividing by a zero buy rate. -/
def CalculateRate (c : Currencies) (baseCurrency fromCode toCode : String) :
    Option (Except ConvError ℚ) :=
  if ToUpper (ToUpper fromCode) = ToUpper (ToUpper toCode) then some (.ok 1)
  else
    match FindCurrency c (ToUpper (ToUpper baseCurrency)) with
    | .error _ => some (.error .baseNotFound)
    | .ok _ =>
      if ToUpper (ToUpper fromCode) = ToUpper (ToUpper baseCurrency) then
        match FindCurrency c (ToUpper (ToUpper toCode)) with
        | .error e => some (.error e)
        | .ok toCurrency => some (.ok toCurrency.SellRate)
      else if ToUpper (ToUpper toCode) = ToUpper (ToUpper baseCurrency) then
        match FindCurrency c (ToUpper (ToUpper fromCode)) with
        | .error e => some (.error e)
        | .ok fromCurrency =>
          match Decimal.Div 1 fromCurrency.BuyRate with
          | none => none
          | some r => some (.ok r)
      else
        match FindCurrency c (ToUpper (ToUpper fromCode)) with
        | .error e => some (.error e)
        | .ok fromCurrency =>
          match FindCurrency c (ToUpper (ToUpper toCode)) with
          | .error e => some (.error e)
          | .ok toCurrency =>
            match Decimal.Div 1 fromCurrency.BuyRate with
            | none => none
            | some r => some (.ok (r * toCurrency.SellRate))

/-- Embeds the `Quote` struct (converter.go:141-151) without its wall-clock
`Date` field. -/
structure Quote where
  BaseCurrency : String
  FromCurrency : String
  FromAmount : ℚ
  Fee : ℚ
  AmountToDeduct : ℚ
  Rate : ℚ
  ToCurrency : String
  FinalAmount : ℚ
  deriving DecidableEq

/-- Embeds `NewQuote` (converter.go:154-190).  The nil-registry check is the
`Option Currencies` argument; the `none` result propagates a division-by-zero
panic from `CalculateRate`.  Note the two precision lookups use the original
(not uppercased) code strings, and each precision passes through `int32`. -/
def NewQuote (rateSource : Option Currencies)
    (baseCurrency fromCurrency toCurrency : String)
    (fromAmount fee : ℚ) : Option (Except ConvError Quote) :=
  match rateSource with
  | none => some (.error .missingRegistry)
  | some c =>
    match CalculateRate c baseCurrency fromCurrency toCurrency with
    | none => none
    | some (.error e) => some (.error e)
    | some (.ok rate) =>
      match FindCurrency c fromCurrency with
      | .error e => some (.error e)
      | .ok infoFrom =>
        match FindCurrency c toCurrency with
        | .error e => some (.error e)
        | .ok infoTo =>
          some (.ok {
            BaseCurrency := baseCurrency
            FromCurrency := fromCurrency
            FromAmount := fromAmount
            Fee := fee
            AmountToDeduct :=
              Decimal.RoundCeil (fromAmount + fee) (int32wrap infoFrom.Precision)
            Rate := rate
            ToCurrency := toCurrency
            FinalAmount :=
              Decimal.RoundCeil (fromAmount * rate) (int32wrap infoTo.Precision) })

/-- Concrete registry used to instantiate the verified properties. -/
def sampleReg : Currencies :=
  ⟨[⟨"USD", 2, 1, 1⟩, ⟨"EUR", 2, 2, 3⟩, ⟨"JPY", 2, 4, 5⟩]⟩

/-- Concrete registry holding a currency with a zero buy rate. -/
def zeroReg : Currencies :=
  ⟨[⟨"USD", 2, 1, 1⟩, ⟨"BAD", 2, 0, 1⟩, ⟨"EUR", 2, 2, 3⟩]⟩

/-- Concrete registry whose only currency declares a precision beyond the
range of `int32`. -/
def bigReg : Currencies := ⟨[⟨"USD", 2 ^ 32, 1, 1⟩]⟩

theorem upChar_bounds : ∀ n : Nat, n < 123 → 97 ≤ n →
    (Char.ofNat (n - 32)).toNat = n - 32 := by decide

theorem upChar_upChar (c : Char) : upChar (upChar c) = upChar c := by
  unfold upChar
  by_cases h : 97 ≤ c.toNat ∧ c.toNat ≤ 122
  · rw [if_pos h]
    have ht : (Char.ofNat (c.toNat - 32)).toNat = c.toNat - 32 :=
      upChar_bounds c.toNat (by omega) h.1
    rw [if_neg (by rw [ht]; omega)]
  · rw [if_neg h, if_neg h]

@[simp] theorem ToUpper_ToUpper (s : String) : ToUpper (ToUpper s) = ToUpper s := by
  have hl : ∀ l : List Char, (l.map upChar).map upChar = l.map upChar := by
    intro l
    rw [List.map_map]
    exact List.map_congr_left fun a _ => upChar_upChar a
  exact congrArg String.mk (hl s.data)

theorem EqualFold_ToUpper_right (a b : String) :
    EqualFold a (ToUpper b) = EqualFold a b := by
  unfold EqualFold
  rw [ToUpper_ToUpper]

theorem EqualFold_congr_right (a b1 b2 : String) (h : ToUpper b1 = ToUpper b2) :
    EqualFold a b1 = EqualFold a b2 := by
  unfold EqualFold
  rw [h]

/-- C1: for every registry, even one in which the base code is absent, and all
code strings whose `from` and `to` are equal after uppercasing, `CalculateRate`
returns rate 1 with no error; since the result is independent of the registry,
no lookup can influence it, so unknown endpoint codes and an invalid base
still yield 1 (the identity check precedes base validation). -/
theorem CalculateRate_same_currency (c : Currencies)
    (base fromCode toCode : String) (h : ToUpper fromCode = ToUpper toCode) :
    CalculateRate c base fromCode toCode = some (.ok 1) := by
  simp [CalculateRate, h]

/-- Witness for C1, at a registry that does not contain the base code "ZZZ"
and with endpoint codes differing in case. -/
theorem CalculateRate_same_currency_witness :
    CalculateRate sampleReg "ZZZ" "usd" "USD" = some (.ok 1) :=
  CalculateRate_same_currency sampleReg "ZZZ" "usd" "USD" (by decide)

/-- C9: `NewQuote` with an absent (nil) registry fails with the
missing-registry error and no quote value, whatever the remaining
arguments are. -/
theorem NewQuote_missing_registry (base fromCode toCode : String)
    (amt fee : ℚ) :
    NewQuote none base fromCode toCode amt fee =
      some (.error .missingRegistry) := rfl

/-- C7: `NewCurrencies` fails with the empty-source error whenever the decoded
collection is empty, fails with a decode error whenever the source cannot be
converted to the currency shape, returns a registry holding exactly the
decoded records on success, and never succeeds with an empty registry. -/
theorem NewCurrencies_spec :
    (∀ msg, NewCurrencies (.error msg) = .error (.decodeError msg)) ∧
    NewCurrencies (.ok []) = .error .emptySource ∧
    (∀ l, l ≠ [] → NewCurrencies (.ok l) = .ok ⟨l⟩) ∧
    (∀ d r, NewCurrencies d = .ok r → r.currencies ≠ []) := by
  refine ⟨fun msg => rfl, rfl, ?_, ?_⟩
  · intro l hl
    match l with
    | [] => exact absurd rfl hl
    | a :: as => rfl
  · intro d r h
    match d with
    | .error msg => exact absurd h (by simp [NewCurrencies])
    | .ok [] => exact absurd h (by simp [NewCurrencies])
    | .ok (a :: as) =>
      have he : NewCurrencies (.ok (a :: as)) = .ok ⟨a :: as⟩ := rfl
      rw [he] at h
      injection h with h2
      rw [← h2]
      exact List.cons_ne_nil a as

/-- Witness for C7: a one-record decode succeeds with that record, and a
failed decode reports the decode error. -/
theorem NewCurrencies_spec_witness :
    NewCurrencies (.ok [⟨"USD", 2, 1, 1⟩]) = .ok ⟨[⟨"USD", 2, 1, 1⟩]⟩ ∧
    NewCurrencies (.error "invalid data") = .error (.decodeError "invalid data") :=
  ⟨NewCurrencies_spec.2.2.1 [⟨"USD", 2, 1, 1⟩] (List.cons_ne_nil _ _),
   NewCurrencies_spec.1 "invalid data"⟩

theorem FindCurrency_eq_match (c : Currencies) (code : String)
    (hne : c.currencies ≠ []) :
    FindCurrency c code =
      match c.currencies.find? (fun cur => EqualFold cur.ISOCode code) with
      | some cur => .ok cur
      | none => .error (.notFound code) := by
  unfold FindCurrency
  rw [if_neg (fun h0 => hne (List.length_eq_zero.mp h0))]

theorem FindCurrency_no_match (c : Currencies) (code : String)
    (hno : ∀ cur ∈ c.currencies, EqualFold cur.ISOCode code = false) :
    ∃ e, FindCurrency c code = .error e := by
  unfold FindCurrency
  by_cases h0 : c.currencies.length = 0
  · exact ⟨.emptySource, by rw [if_pos h0]⟩
  · refine ⟨.notFound code, ?_⟩
    rw [if_neg h0]
    have hn : c.currencies.find? (fun cur => EqualFold cur.ISOCode code) = none :=
      List.find?_eq_none.mpr fun x hx => by simp [hno x hx]
    rw [hn]

/-- C8: `FindCurrency` is case-insensitive: on a non-empty registry, two
requested codes that agree after uppercasing find exactly the same records
(in particular a record is found for one exactly when a record whose ISO code
matches case-insensitively exists), and when no record matches, each request
fails with the not-found error carrying that requested code. -/
theorem FindCurrency_case_insensitive (c : Currencies)
    (hne : c.currencies ≠ []) (c1 c2 : String)
    (h : ToUpper c1 = ToUpper c2) :
    (∀ cur, FindCurrency c c1 = .ok cur ↔ FindCurrency c c2 = .ok cur) ∧
    ((∃ cur ∈ c.currencies, EqualFold cur.ISOCode c1 = true) ↔
      ∃ cur, FindCurrency c c1 = .ok cur) ∧
    ((∀ cur ∈ c.currencies, EqualFold cur.ISOCode c1 = false) →
      FindCurrency c c1 = .error (.notFound c1) ∧
      FindCurrency c c2 = .error (.notFound c2)) := by
  have hp : (fun cur : Currency => EqualFold cur.ISOCode c1)
      = fun cur : Currency => EqualFold cur.ISOCode c2 :=
    funext fun x => EqualFold_congr_right _ _ _ h
  have h1 := FindCurrency_eq_match c c1 hne
  have h2 := FindCurrency_eq_match c c2 hne
  rw [hp] at h1
  cases hf : c.currencies.find? (fun cur => EqualFold cur.ISOCode c2) with
  | some cur0 =>
    rw [hf] at h1 h2
    have hpc2 : EqualFold cur0.ISOCode c2 = true := by
      have hx := List.find?_some hf
      exact hx
    have hpc1 : EqualFold cur0.ISOCode c1 = true := by
      rw [EqualFold_congr_right _ _ _ h]; exact hpc2
    have hmem : cur0 ∈ c.currencies := List.mem_of_find?_eq_some hf
    refine ⟨fun cur => by rw [h1, h2], ?_, ?_⟩
    · exact ⟨fun _ => ⟨cur0, h1⟩, fun _ => ⟨cur0, hmem, hpc1⟩⟩
    · intro hall
      exact absurd hpc1 (by simp [hall cur0 hmem])
  | none =>
    rw [hf] at h1 h2
    have hnone : ∀ x ∈ c.currencies, ¬ (EqualFold x.ISOCode c2 = true) :=
      List.find?_eq_none.mp hf
    refine ⟨fun cur => by simp [h1, h2], ?_, fun _ => ⟨h1, h2⟩⟩
    constructor
    · rintro ⟨cur, hmem, hc1⟩
      refine absurd ?_ (hnone cur hmem)
      rw [← EqualFold_congr_right _ _ _ h]; exact hc1
    · rintro ⟨cur, hcur⟩
      rw [h1] at hcur
      exact absurd hcur (by simp)

/-- Witness for C8: in the sample registry the lowercase and uppercase
requests for the dollar code find the same record. -/
theorem FindCurrency_case_insensitive_witness :
    FindCurrency sampleReg "usd" = .ok ⟨"USD", 2, 1, 1⟩ ∧
    FindCurrency sampleReg "USD" = .ok ⟨"USD", 2, 1, 1⟩ := by
  have h := FindCurrency_case_insensitive sampleReg (by decide) "usd" "USD"
    (by decide)
  exact ⟨(h.1 ⟨"USD", 2, 1, 1⟩).mpr (by with_unfolding_all decide),
    by with_unfolding_all decide⟩

/-- C6: when `from` and `to` differ after uppercasing and the base code is
absent from the registry, `CalculateRate` fails with the dedicated
base-currency-not-found error: a distinct error kind that carries no code,
so the underlying not-found detail of the lookup is swallowed. -/
theorem CalculateRate_base_missing (c : Currencies)
    (base fromCode toCode : String)
    (hft : ToUpper fromCode ≠ ToUpper toCode)
    (hno : ∀ cur ∈ c.currencies, EqualFold cur.ISOCode base = false) :
    CalculateRate c base fromCode toCode = some (.error .baseNotFound) ∧
    ∀ code, ConvError.baseNotFound ≠ ConvError.notFound code := by
  have hno2 : ∀ cur ∈ c.currencies,
      EqualFold cur.ISOCode (ToUpper (ToUpper base)) = false := by
    intro cur hcur
    rw [EqualFold_ToUpper_right, EqualFold_ToUpper_right]
    exact hno cur hcur
  obtain ⟨e, he⟩ := FindCurrency_no_match c (ToUpper (ToUpper base)) hno2
  have hft2 : ToUpper (ToUpper fromCode) ≠ ToUpper (ToUpper toCode) := by
    rw [ToUpper_ToUpper, ToUpper_ToUpper]; exact hft
  refine ⟨?_, fun code => by simp⟩
  unfold CalculateRate
  rw [if_neg hft2, he]

/-- Witness for C6: an unknown base code with distinct endpoint codes. -/
theorem CalculateRate_base_missing_witness :
    CalculateRate sampleReg "ZZZ" "USD" "EUR" =
      some (.error .baseNotFound) :=
  (CalculateRate_base_missing sampleReg "ZZZ" "USD" "EUR" (by decide)
    (by decide)).1

/-- C3: with the base present, a target currency present, and target distinct
from base after uppercasing, `CalculateRate base base to` succeeds with
exactly the found target record's sell rate. -/
theorem CalculateRate_base_to_target (c : Currencies)
    (base toCode : String) (bc tc : Currency)
    (hTB : ToUpper toCode ≠ ToUpper base)
    (hB : FindCurrency c (ToUpper base) = .ok bc)
    (hT : FindCurrency c (ToUpper toCode) = .ok tc) :
    CalculateRate c base base toCode = some (.ok tc.SellRate) := by
  simp [CalculateRate, ToUpper_ToUpper, hB, hT, Ne.symm hTB]

/-- Witness for C3 on the sample registry: selling euros against a dollar
base quotes the euro sell rate 3. -/
theorem CalculateRate_base_to_target_witness :
    CalculateRate sampleReg "USD" "USD" "EUR" = some (.ok (3 : ℚ)) :=
  CalculateRate_base_to_target sampleReg "USD" "EUR"
    ⟨"USD", 2, 1, 1⟩ ⟨"EUR", 2, 2, 3⟩ (by decide)
    (by with_unfolding_all decide) (by with_unfolding_all decide)

/-- C4: with the base present, a source currency present, source distinct from
base after uppercasing, and a nonzero buy rate (the division the claim speaks
of is only defined then; see C10 for a zero buy rate), `CalculateRate base
from base` succeeds with exactly 1 divided by the found source record's buy
rate, the division being the shopspring one at 16 decimal places. -/
theorem CalculateRate_target_to_base (c : Currencies)
    (base fromCode : String) (bc fc : Currency)
    (hFB : ToUpper fromCode ≠ ToUpper base)
    (hB : FindCurrency c (ToUpper base) = .ok bc)
    (hF : FindCurrency c (ToUpper fromCode) = .ok fc)
    (hbuy : fc.BuyRate ≠ 0) :
    CalculateRate c base fromCode base =
      some (.ok (Decimal.DivRound 1 fc.BuyRate DivisionPrecision)) := by
  simp [CalculateRate, ToUpper_ToUpper, hB, hF, hFB, Decimal.Div, hbuy]

/-- Witness for C4 on the sample registry: buying back the dollar base with
euros (buy rate 2) quotes 1/2. -/
theorem CalculateRate_target_to_base_witness :
    CalculateRate sampleReg "USD" "EUR" "USD" =
      some (.ok (Decimal.DivRound 1 2 DivisionPrecision)) ∧
    Decimal.DivRound 1 2 DivisionPrecision = 1 / 2 :=
  ⟨CalculateRate_target_to_base sampleReg "USD" "EUR"
      ⟨"USD", 2, 1, 1⟩ ⟨"EUR", 2, 2, 3⟩ (by decide)
      (by with_unfolding_all decide) (by with_unfolding_all decide)
      (by with_unfolding_all decide),
    by with_unfolding_all decide⟩

/-- C2: with the base present and two further currencies present, all three
pairwise distinct after uppercasing, and a nonzero source buy rate (the
division the claim speaks of is only defined then; see C10), `CalculateRate`
succeeds with exactly (1 divided by the source record's buy rate, the
shopspring division at 16 decimal places) times the target record's sell
rate. -/
theorem CalculateRate_cross_rate (c : Currencies)
    (base fromCode toCode : String) (bc fc tc : Currency)
    (hFT : ToUpper fromCode ≠ ToUpper toCode)
    (hFB : ToUpper fromCode ≠ ToUpper base)
    (hTB : ToUpper toCode ≠ ToUpper base)
    (hB : FindCurrency c (ToUpper base) = .ok bc)
    (hF : FindCurrency c (ToUpper fromCode) = .ok fc)
    (hT : FindCurrency c (ToUpper toCode) = .ok tc)
    (hbuy : fc.BuyRate ≠ 0) :
    CalculateRate c base fromCode toCode =
      some (.ok (Decimal.DivRound 1 fc.BuyRate DivisionPrecision
        * tc.SellRate)) := by
  simp [CalculateRate, ToUpper_ToUpper, hB, hF, hT, hFT, hFB, hTB,
    Decimal.Div, hbuy]

/-- Witness for C2 on the sample registry: euros (buy rate 2) to yen (sell
rate 5) against a dollar base quotes (1/2) * 5 = 5/2. -/
theorem CalculateRate_cross_rate_witness :
    CalculateRate sampleReg "USD" "EUR" "JPY" =
      some (.ok (Decimal.DivRound 1 2 DivisionPrecision * 5)) ∧
    Decimal.DivRound 1 2 DivisionPrecision * 5 = 5 / 2 :=
  ⟨CalculateRate_cross_rate sampleReg "USD" "EUR" "JPY"
      ⟨"USD", 2, 1, 1⟩ ⟨"EUR", 2, 2, 3⟩ ⟨"JPY", 2, 4, 5⟩
      (by decide) (by decide) (by decide)
      (by with_unfolding_all decide) (by with_unfolding_all decide)
      (by with_unfolding_all decide) (by with_unfolding_all decide),
    by with_unfolding_all decide⟩

/-- C10: `CalculateRate` divides by the source currency's buy rate with no
zero guard: with the base present, a present source currency whose buy rate is
zero, and the source distinct from the base, the target-to-base branch - and
the cross-rate branch, for any present third currency - reach the shopspring
division by zero, a run-time panic modelled as `none`: the operation is not
total there and no error value is returned. -/
theorem CalculateRate_div_by_zero (c : Currencies)
    (base fromCode : String) (bc fc : Currency)
    (hB : FindCurrency c (ToUpper base) = .ok bc)
    (hF : FindCurrency c (ToUpper fromCode) = .ok fc)
    (hzero : fc.BuyRate = 0)
    (hFB : ToUpper fromCode ≠ ToUpper base) :
    CalculateRate c base fromCode base = none ∧
    ∀ toCode tc, ToUpper toCode ≠ ToUpper base →
      ToUpper fromCode ≠ ToUpper toCode →
      FindCurrency c (ToUpper toCode) = .ok tc →
      CalculateRate c base fromCode toCode = none := by
  constructor
  · simp [CalculateRate, ToUpper_ToUpper, hB, hF, hFB, Decimal.Div, hzero]
  · intro toCode tc hTB hFT hT
    simp [CalculateRate, ToUpper_ToUpper, hB, hF, hT, hFT, hFB, hTB,
      Decimal.Div, hzero]

/-- Witness for C10: the registry holding a zero-buy-rate currency makes both
the target-to-base conversion and the cross-rate conversion from it panic. -/
theorem CalculateRate_div_by_zero_witness :
    CalculateRate zeroReg "USD" "BAD" "USD" = none ∧
    CalculateRate zeroReg "USD" "BAD" "EUR" = none := by
  have h := CalculateRate_div_by_zero zeroReg "USD" "BAD"
    ⟨"USD", 2, 1, 1⟩ ⟨"BAD", 2, 0, 1⟩
    (by with_unfolding_all decide) (by with_unfolding_all decide)
    rfl (by decide)
  exact ⟨h.1, h.2 "EUR" ⟨"EUR", 2, 2, 3⟩ (by decide) (by decide)
    (by with_unfolding_all decide)⟩

theorem RoundCeil_half (p : ℤ) (hp : 1 ≤ p) :
    Decimal.RoundCeil (1 / 2) p = 1 / 2 := by
  obtain ⟨n, rfl⟩ : ∃ n : ℕ, p = (n : ℤ) + 1 := ⟨(p - 1).toNat, by omega⟩
  unfold Decimal.RoundCeil
  have hz : (10 : ℚ) ^ ((n : ℤ) + 1) = ((10 ^ (n + 1) : ℤ) : ℚ) := by
    rw [show ((n : ℤ) + 1) = ((n + 1 : ℕ) : ℤ) by push_cast; ring, zpow_natCast]
    push_cast
    ring
  have hhalf : (1 / 2 : ℚ) * 10 ^ ((n : ℤ) + 1) = ((5 * 10 ^ n : ℤ) : ℚ) := by
    rw [hz]
    push_cast
    ring
  rw [hhalf, Int.ceil_intCast, hz,
    div_eq_iff (by positivity : ((10 ^ (n + 1) : ℤ) : ℚ) ≠ 0)]
  push_cast
  ring

/-- C5 counterexample: the claim fails as universally stated because `NewQuote`
truncates each declared precision through `int32`.  In the one-currency
registry whose dollar record declares precision 2^32 (a representable Go
`int`), quoting amount 1/2 with fee 0 at rate 1 produces final amount 1 - the
code rounds at the wrapped precision `int32(2^32) = 0` - whereas rounding at
the declared precision 2^32, as the claim requires, keeps 1/2. -/
theorem NewQuote_precision_counterexample :
    (NewQuote (some bigReg) "USD" "USD" "USD" (1 / 2) 0).map
        (Except.map Quote.FinalAmount) = some (.ok 1) ∧
    CalculateRate bigReg "USD" "USD" "USD" = some (.ok 1) ∧
    Decimal.RoundCeil (1 / 2 * 1) ((2 : ℤ) ^ 32) = 1 / 2 ∧
    (1 : ℚ) ≠ 1 / 2 := by
  refine ⟨by with_unfolding_all decide, rfl, ?_, by norm_num⟩
  rw [show (1 / 2 * 1 : ℚ) = 1 / 2 by ring]
  exact RoundCeil_half _ (by norm_num)

/-- C5 (amended): for every successful `NewQuote` call whose two looked-up
endpoint precisions are representable in `int32` (the code truncates each
declared precision through `int32` before rounding - see the counterexample
for a precision beyond that range), the returned quote satisfies
`AmountToDeduct` = (amount + fee) rounded towards positive infinity at the
from currency's precision, and `FinalAmount` = (amount * rate) rounded
towards positive infinity at the to currency's precision, where rate is the
value `CalculateRate` returned for (base, from, to). -/
theorem NewQuote_amounts (c : Currencies)
    (base fromCode toCode : String) (amt fee : ℚ) (q : Quote)
    (rate : ℚ) (infoFrom infoTo : Currency)
    (hr : CalculateRate c base fromCode toCode = some (.ok rate))
    (hF : FindCurrency c fromCode = .ok infoFrom)
    (hT : FindCurrency c toCode = .ok infoTo)
    (hq : NewQuote (some c) base fromCode toCode amt fee = some (.ok q))
    (hpF : int32wrap infoFrom.Precision = infoFrom.Precision)
    (hpT : int32wrap infoTo.Precision = infoTo.Precision) :
    q.AmountToDeduct = Decimal.RoundCeil (amt + fee) infoFrom.Precision ∧
    q.FinalAmount = Decimal.RoundCeil (amt * rate) infoTo.Precision := by
  simp only [NewQuote, hr, hF, hT] at hq
  injection hq with hq
  injection hq with hq
  rw [← hq]
  constructor
  · show Decimal.RoundCeil (amt + fee) (int32wrap infoFrom.Precision) = _
    rw [hpF]
  · show Decimal.RoundCeil (amt * rate) (int32wrap infoTo.Precision) = _
    rw [hpT]

/-- Witness for C5 (amended) on the sample registry: amount 100, fee 5, rate 3
(dollar base to euros), both precisions 2: deduct 105, receive 300. -/
theorem NewQuote_amounts_witness :
    (105 : ℚ) = Decimal.RoundCeil (100 + 5) 2 ∧
    (300 : ℚ) = Decimal.RoundCeil (100 * 3) 2 :=
  NewQuote_amounts sampleReg "USD" "USD" "EUR" 100 5
    ⟨"USD", "USD", 100, 5, 105, 3, "EUR", 300⟩ 3
    ⟨"USD", 2, 1, 1⟩ ⟨"EUR", 2, 2, 3⟩
    (by with_unfolding_all decide) (by with_unfolding_all decide)
    (by with_unfolding_all decide) (by with_unfolding_all decide)
    (by with_unfolding_all decide) (by with_unfolding_all decide)
